import Mathlib

/-!
Verification of the bugland sprite library (bug.py).

A numpy 2D integer array is modelled as a list of rows, each row a list of
natural numbers (pixel values in this library are non-negative integers,
0 meaning background).  The numpy operations the source uses — reversal
slices, transpose, zeros, ones, strided slice assignment, in-place bitwise
or into a slice — are modelled by explicit functions on this representation,
with slice assignments flattened into their per-cell writes in execution
order.
-/

namespace Bugland

/-- A 2D array: a list of rows. -/
abbrev Grid := List (List Nat)

/-- Number of rows (shape[0] of a 2D numpy array). -/
def nrows (g : Grid) : Nat := g.length

/-- Number of columns: length of the first row (0 if there are no rows).
For a rectangular grid with at least one row this is shape[1]. -/
def ncols (g : Grid) : Nat := (g.headD []).length

/-- Element access row[c], returning 0 out of range (the source never reads
out of range). -/
def getRowAt : List Nat → Nat → Nat
  | [], _ => 0
  | x :: _, 0 => x
  | _ :: xs, c + 1 => getRowAt xs c

/-- Element access g[r][c], returning 0 out of range. -/
def getCell : Grid → Nat → Nat → Nat
  | [], _, _ => 0
  | row :: _, 0, c => getRowAt row c
  | _ :: rs, r + 1, c => getCell rs r c

/-- Functional update row[c] := v; out of range, no effect. -/
def setRowAt : List Nat → Nat → Nat → List Nat
  | [], _, _ => []
  | _ :: xs, 0, v => v :: xs
  | x :: xs, c + 1, v => x :: setRowAt xs c v

/-- Functional update g[r][c] := v; out of range, no effect. -/
def setCell : Grid → Nat → Nat → Nat → Grid
  | [], _, _, _ => []
  | row :: rs, 0, c, v => setRowAt row c v :: rs
  | row :: rs, r + 1, c, v => row :: setCell rs r c v

/-- In-place g[r][c] |= v, numpy bitwise or on integer arrays. -/
def orCell (g : Grid) (r c v : Nat) : Grid :=
  setCell g r c (getCell g r c ||| v)

/-- numpy.zeros((R, C)) with integer dtype. -/
def zeros (R C : Nat) : Grid := List.replicate R (List.replicate C 0)

/-- numpy.ones((R, C)). -/
def ones (R C : Nat) : Grid := List.replicate R (List.replicate C 1)

/-- The grid is a rectangular R by C array with at least one row: exactly
when numpy.array of the corresponding nested list has 2D shape (R, C).
(numpy.array of the empty list gives a 1D array of shape (0,), which has no
2D shape.) -/
def HasShape (g : Grid) (R C : Nat) : Prop :=
  0 < R ∧ g.map List.length = List.replicate R C

instance (g : Grid) (R C : Nat) : Decidable (HasShape g R C) := by
  unfold HasShape; infer_instance

/-- Rectangularity: every row has the length of the first row. -/
def Rect (g : Grid) : Prop := ∀ row ∈ g, row.length = ncols g

instance (g : Grid) : Decidable (Rect g) := by
  unfold Rect; infer_instance

/-- Modelling numpy.array on a nested list of numbers, under the Python 2
era numpy this xrange-using source runs on: it never raises.  On rows of
equal lengths it builds the 2D array; on rows of inconsistent lengths it
silently builds a 1-D object array holding the row lists (no exception),
which this representation keeps as the rows themselves.  The Except type is
kept to record that no code path returns an error. -/
def npArray (g : Grid) : Except String Grid :=
  Except.ok g

/-- Reading shape[0] and shape[1] (or unpacking the shape as a pair): fails
when the nested list is empty, since numpy.array of the empty list is
1-dimensional. -/
def shape2? (g : Grid) : Option (Nat × Nat) :=
  match g with
  | [] => none
  | row :: _ => some (g.length, row.length)

/-- numpy transpose of a rectangular 2D array: row c of the result is
column c of the input. -/
def transpose (g : Grid) : Grid :=
  (List.range (ncols g)).map (fun c => g.map (fun row => getRowAt row c))

/-- The Bug entity: a name, a pixel patch and an occupancy mask. -/
structure Bug where
  name : String
  patch : Grid
  mask : Grid
deriving DecidableEq

/-- The Bug constructor: patch and mask go through numpy.array, which
performs no validation that could raise; when mask is omitted the mask
field is the patch array itself. -/
def mkBug (name : String) (patch : Grid) (mask : Option Grid) :
    Except String Bug :=
  match npArray patch with
  | Except.error e => Except.error e
  | Except.ok p =>
    match mask with
    | none => Except.ok ⟨name, p, p⟩
    | some mg =>
      match npArray mg with
      | Except.error e => Except.error e
      | Except.ok mg2 => Except.ok ⟨name, p, mg2⟩

/-- patch[:, ::-1] and mask[:, ::-1]: reverse every row. -/
def hflip (u : Bug) : Bug :=
  ⟨u.name, u.patch.map List.reverse, u.mask.map List.reverse⟩

/-- patch[::-1] and mask[::-1]: reverse the list of rows. -/
def vflip (u : Bug) : Bug :=
  ⟨u.name, u.patch.reverse, u.mask.reverse⟩

/-- Rotation dispatch once the angle has been reduced mod 360 and checked to
lie in 0, 90, 180, 270: angle 0 returns the receiver itself; angle 90
builds the Bug with transposed patch and mask and applies hflip to it;
larger angles apply hflip then vflip and recurse with angle - 180, exactly
as the source does. -/
def rotateValid (u : Bug) (a : Nat) : Bug :=
  if _h0 : a = 0 then u
  else if _h90 : a = 90 then hflip ⟨u.name, transpose u.patch, transpose u.mask⟩
  else rotateValid (vflip (hflip u)) (a - 180)
termination_by a
decreasing_by omega

/-- rotate(angle): reduce the angle modulo 360 (Python % on ints, which is
Int.emod), reject anything outside 0, 90, 180, 270 with a ValueError, and
dispatch. -/
def rotate (u : Bug) (angle : Int) : Except String Bug :=
  let a := angle % 360
  if a = 0 ∨ a = 90 ∨ a = 180 ∨ a = 270 then Except.ok (rotateValid u a.toNat)
  else Except.error "angle must be one of: 0, 90, 180, 270"

/-- A Python value passed as a scale factor: either an int, or a value of
any other type (one that fails the isinstance int check in scale). -/
inductive PyScalar where
  | int : Int → PyScalar
  | nonInt : PyScalar
deriving DecidableEq

/-- One assignment to a single cell of a 2D array. -/
structure Write where
  r : Nat
  c : Nat
  v : Nat
deriving DecidableEq

/-- Execute a list of plain cell assignments left to right. -/
def applySet (g : Grid) (ws : List Write) : Grid :=
  ws.foldl (fun acc w => setCell acc w.r w.c w.v) g

/-- Execute a list of in-place bitwise-or cell updates left to right. -/
def applyOr (g : Grid) (ws : List Write) : Grid :=
  ws.foldl (fun acc w => orCell acc w.r w.c w.v) g

/-- The cell writes performed by the scale loops
target[i : R*ys : ys, j : C*xs : xs] = src for i below ys and j below xs,
flattened in execution order.  The strided slice selects exactly the cells
(i + a*ys, j + b*xs) for a below R and b below C, each receiving src[a][b]. -/
def scaleWrites (src : Grid) (R C ys xs : Nat) : List Write :=
  (List.range ys).flatMap (fun i =>
    (List.range xs).flatMap (fun j =>
      (List.range R).flatMap (fun a =>
        (List.range C).map (fun b =>
          ⟨i + a * ys, j + b * xs, getCell src a b⟩))))

/-- The cell updates performed by the margin loops
mask[i : mr-m+1+i, j : mc-m+1+j] |= patch for i and j below m, flattened in
execution order.  Whenever the loop body runs, mr-m+1 and mc-m+1 equal the
patch row and column counts R and C, so the slice covers exactly the R by C
block at offset (i, j), cell (i + a, j + b) receiving patch[a][b]. -/
def marginWrites (src : Grid) (R C m : Nat) : List Write :=
  (List.range m).flatMap (fun i =>
    (List.range m).flatMap (fun j =>
      (List.range R).flatMap (fun a =>
        (List.range C).map (fun b =>
          ⟨i + a, j + b, getCell src a b⟩))))

/-- scale(xscale, yscale = None): yscale defaults to xscale; both must pass
isinstance int or a TypeError is raised; the patch and mask shapes are
unpacked (failing on a degenerate 1D array); numpy.zeros rejects negative
dimensions with a ValueError; then each source array is written into the
zero target through the strided slice assignments of the two loops. -/
def scale (u : Bug) (xv : PyScalar) (yv? : Option PyScalar) :
    Except String Bug :=
  let yv := yv?.getD xv
  match xv, yv with
  | PyScalar.int xs, PyScalar.int ys =>
    match shape2? u.patch, shape2? u.mask with
    | some (prows, pcols), some (mrows, mcols) =>
      if (prows : Int) * ys < 0 ∨ (pcols : Int) * xs < 0 then
        Except.error "negative dimensions are not allowed"
      else if (mrows : Int) * ys < 0 ∨ (mcols : Int) * xs < 0 then
        Except.error "negative dimensions are not allowed"
      else
        Except.ok ⟨u.name,
          applySet (zeros (prows * ys.toNat) (pcols * xs.toNat))
            (scaleWrites u.patch prows pcols ys.toNat xs.toNat),
          applySet (zeros (mrows * ys.toNat) (mcols * xs.toNat))
            (scaleWrites u.mask mrows mcols ys.toNat xs.toNat)⟩
    | _, _ => Except.error "need more than 1 value to unpack"
  | _, _ => Except.error "xscale and yscale must be integers."

/-- margin(margin): reads patch shape[0] and shape[1] (an IndexError on a
degenerate 1D patch), allocates numpy.zeros of shape
(shape[0] + 2*margin, shape[1] + 2*margin) — a ValueError when a dimension
is negative — and or-accumulates the patch into every offset of the
(2*margin + 1) square window; with a negative margin both loops are empty. -/
def margin (u : Bug) (marg : Int) : Except String Bug :=
  match shape2? u.patch with
  | none => Except.error "tuple index out of range"
  | some (h, w) =>
    let mr : Int := (h : Int) + marg * 2
    let mc : Int := (w : Int) + marg * 2
    if mr < 0 ∨ mc < 0 then Except.error "negative dimensions are not allowed"
    else
      Except.ok ⟨u.name, u.patch,
        applyOr (zeros mr.toNat mc.toNat)
          (marginWrites u.patch h w (marg * 2 + 1).toNat)⟩

/-- total_mask(): same patch, mask = numpy.ones of the current mask shape. -/
def total_mask (u : Bug) : Bug :=
  ⟨u.name, u.patch, ones (nrows u.mask) (ncols u.mask)⟩

/-- fit_mask(): same patch, mask = the patch itself. -/
def fit_mask (u : Bug) : Bug :=
  ⟨u.name, u.patch, u.patch⟩

/-- Property h: patch shape[0]. -/
def Bug.h (u : Bug) : Nat := nrows u.patch

/-- Property w: patch shape[1] (meaningful on rectangular non-empty patches). -/
def Bug.w (u : Bug) : Nat := ncols u.patch

/-- Property mh: mask shape[0]. -/
def Bug.mh (u : Bug) : Nat := nrows u.mask

/-- Property mw: mask shape[1]. -/
def Bug.mw (u : Bug) : Nat := ncols u.mask

/-- Property marginh: (mh - h)/2 with Python 2 integer division (floor). -/
def Bug.marginh (u : Bug) : Int := Int.fdiv ((u.mh : Int) - (u.h : Int)) 2

/-- Property marginw: (mw - w)/2 with Python 2 integer division (floor). -/
def Bug.marginw (u : Bug) : Int := Int.fdiv ((u.mw : Int) - (u.w : Int)) 2

/-- Chebyshev (max-coordinate) distance between two integer points. -/
def chebDist (p q : Int × Int) : Nat :=
  max (p.1 - q.1).natAbs (p.2 - q.2).natAbs

/-! ### Basic lemmas about cell access and update -/

theorem length_setRowAt (row : List Nat) (c v : Nat) :
    (setRowAt row c v).length = row.length := by
  induction row generalizing c with
  | nil => rfl
  | cons x xs ih => cases c with
    | zero => rfl
    | succ c => simp [setRowAt, ih]

theorem getRowAt_setRowAt_self (row : List Nat) (c v : Nat) (h : c < row.length) :
    getRowAt (setRowAt row c v) c = v := by
  induction row generalizing c with
  | nil => simp at h
  | cons x xs ih => cases c with
    | zero => rfl
    | succ c => exact ih c (by simp at h; omega)

theorem getRowAt_setRowAt_ne (row : List Nat) (c c' v : Nat) (h : c' ≠ c) :
    getRowAt (setRowAt row c v) c' = getRowAt row c' := by
  induction row generalizing c c' with
  | nil => rfl
  | cons x xs ih =>
    cases c with
    | zero => cases c' with
      | zero => exact absurd rfl h
      | succ c' => rfl
    | succ c => cases c' with
      | zero => rfl
      | succ c' => exact ih c c' (by omega)

theorem getRowAt_eq_zero_of_le (row : List Nat) (c : Nat) (h : row.length ≤ c) :
    getRowAt row c = 0 := by
  induction row generalizing c with
  | nil => rfl
  | cons x xs ih => cases c with
    | zero => simp at h
    | succ c => exact ih c (by simp at h; omega)

theorem maplen_setCell (g : Grid) (r c v : Nat) :
    (setCell g r c v).map List.length = g.map List.length := by
  induction g generalizing r with
  | nil => rfl
  | cons row rs ih => cases r with
    | zero => simp [setCell, length_setRowAt]
    | succ r => simp [setCell, ih]

theorem getCell_setCell_self (g : Grid) (R C r c v : Nat)
    (hmap : g.map List.length = List.replicate R C) (hr : r < R) (hc : c < C) :
    getCell (setCell g r c v) r c = v := by
  induction g generalizing r R with
  | nil =>
    cases R with
    | zero => omega
    | succ R => simp at hmap
  | cons row rs ih =>
    cases R with
    | zero => omega
    | succ R =>
      simp [List.replicate_succ] at hmap
      obtain ⟨hrow, hrs⟩ := hmap
      cases r with
      | zero => exact getRowAt_setRowAt_self row c v (by omega)
      | succ r => exact ih _ _ hrs (by omega)

theorem getCell_setCell_ne (g : Grid) (r c r' c' v : Nat)
    (h : r' ≠ r ∨ c' ≠ c) :
    getCell (setCell g r c v) r' c' = getCell g r' c' := by
  induction g generalizing r r' with
  | nil => rfl
  | cons row rs ih =>
    cases r with
    | zero => cases r' with
      | zero =>
        rcases h with h | h
        · exact absurd rfl h
        · exact getRowAt_setRowAt_ne row c c' v h
      | succ r' => rfl
    | succ r => cases r' with
      | zero => rfl
      | succ r' =>
        rcases h with h | h
        · exact ih r r' (Or.inl (by omega))
        · exact ih r r' (Or.inr h)

theorem getCell_eq_zero_of_row_le (g : Grid) (R C r c : Nat)
    (hmap : g.map List.length = List.replicate R C) (hr : R ≤ r) :
    getCell g r c = 0 := by
  induction g generalizing r R with
  | nil => rfl
  | cons row rs ih =>
    cases R with
    | zero => simp at hmap
    | succ R =>
      simp [List.replicate_succ] at hmap
      cases r with
      | zero => omega
      | succ r => exact ih _ _ hmap.2 (by omega)

theorem getCell_eq_zero_of_col_le (g : Grid) (R C r c : Nat)
    (hmap : g.map List.length = List.replicate R C) (hc : C ≤ c) :
    getCell g r c = 0 := by
  induction g generalizing r R with
  | nil => rfl
  | cons row rs ih =>
    cases R with
    | zero => simp at hmap
    | succ R =>
      simp [List.replicate_succ] at hmap
      cases r with
      | zero => exact getRowAt_eq_zero_of_le row c (by omega)
      | succ r => exact ih _ _ hmap.2

/-! ### Lemmas about zeros, ones and replicate shapes -/

theorem maplen_zeros (R C : Nat) :
    (zeros R C).map List.length = List.replicate R C := by
  simp [zeros]

theorem maplen_ones (R C : Nat) :
    (ones R C).map List.length = List.replicate R C := by
  simp [ones]

theorem getRowAt_replicate (C c x : Nat) :
    getRowAt (List.replicate C x) c = if c < C then x else 0 := by
  induction C generalizing c with
  | zero => simp [getRowAt]
  | succ C ih =>
    cases c with
    | zero => simp [List.replicate_succ, getRowAt]
    | succ c =>
      rw [List.replicate_succ]
      show getRowAt (List.replicate C x) c = _
      rw [ih]
      by_cases h : c < C <;> simp [h, Nat.succ_lt_succ_iff]

theorem getCell_zeros (R C r c : Nat) : getCell (zeros R C) r c = 0 := by
  induction R generalizing r with
  | zero => rfl
  | succ R ih =>
    cases r with
    | zero => simp [zeros, List.replicate_succ, getCell, getRowAt_replicate]
    | succ r => exact ih r

/-! ### Lemmas about write sequences -/

theorem maplen_applySet (g : Grid) (ws : List Write) :
    (applySet g ws).map List.length = g.map List.length := by
  induction ws generalizing g with
  | nil => rfl
  | cons w ws ih => simp [applySet, List.foldl_cons] at ih ⊢; rw [ih, maplen_setCell]

theorem maplen_applyOr (g : Grid) (ws : List Write) :
    (applyOr g ws).map List.length = g.map List.length := by
  induction ws generalizing g with
  | nil => rfl
  | cons w ws ih =>
    simp [applyOr, List.foldl_cons] at ih ⊢
    rw [ih, orCell, maplen_setCell]

theorem getCell_applySet_not_hit (g : Grid) (ws : List Write) (r c : Nat)
    (h : ∀ w ∈ ws, ¬(w.r = r ∧ w.c = c)) :
    getCell (applySet g ws) r c = getCell g r c := by
  induction ws generalizing g with
  | nil => rfl
  | cons w ws ih =>
    have hw := h w (by simp)
    have step : getCell (setCell g w.r w.c w.v) r c = getCell g r c := by
      apply getCell_setCell_ne
      by_contra hcon
      push_neg at hcon
      exact hw ⟨hcon.1.symm, hcon.2.symm⟩
    calc getCell (applySet (setCell g w.r w.c w.v) ws) r c
        = getCell (setCell g w.r w.c w.v) r c :=
          ih (setCell g w.r w.c w.v) (fun w2 h2 => h w2 (by simp [h2]))
      _ = getCell g r c := step

theorem getCell_applySet_hit (g : Grid) (ws : List Write) (R C r c v : Nat)
    (hmap : g.map List.length = List.replicate R C) (hr : r < R) (hc : c < C)
    (hex : ∃ w ∈ ws, w.r = r ∧ w.c = c)
    (hall : ∀ w ∈ ws, w.r = r → w.c = c → w.v = v) :
    getCell (applySet g ws) r c = v := by
  induction ws generalizing g with
  | nil => simp at hex
  | cons w ws ih =>
    by_cases hrest : ∃ w2 ∈ ws, w2.r = r ∧ w2.c = c
    · exact ih (setCell g w.r w.c w.v)
        (by rw [maplen_setCell]; exact hmap) hrest
        (fun w2 h2 => hall w2 (by simp [h2]))
    · have hw : w.r = r ∧ w.c = c := by
        rcases hex with ⟨w2, hw2, hhit⟩
        rcases List.mem_cons.mp hw2 with h2 | h2
        · subst h2; exact hhit
        · exact absurd ⟨w2, h2, hhit⟩ hrest
      have hv : w.v = v := hall w (by simp) hw.1 hw.2
      have : getCell (applySet (setCell g w.r w.c w.v) ws) r c
           = getCell (setCell g w.r w.c w.v) r c := by
        apply getCell_applySet_not_hit
        intro w2 h2 hcon
        exact hrest ⟨w2, h2, hcon⟩
      rw [applySet, List.foldl_cons, ← applySet, this, hw.1, hw.2, hv]
      exact getCell_setCell_self g R C r c v hmap hr hc

theorem lor_ne_zero_iff (m n : Nat) : m ||| n ≠ 0 ↔ m ≠ 0 ∨ n ≠ 0 := by
  constructor
  · intro h
    by_contra hc
    push_neg at hc
    rw [hc.1, hc.2] at h
    simp at h
  · rintro (h | h) hz
    · obtain ⟨i, hi⟩ := Nat.ne_zero_implies_bit_true h
      have : (m ||| n).testBit i = true := by simp [hi]
      rw [hz] at this
      simp at this
    · obtain ⟨i, hi⟩ := Nat.ne_zero_implies_bit_true h
      have : (m ||| n).testBit i = true := by simp [hi]
      rw [hz] at this
      simp at this

theorem getCell_applyOr_ne_zero (g : Grid) (ws : List Write) (R C r c : Nat)
    (hmap : g.map List.length = List.replicate R C) (hr : r < R) (hc : c < C) :
    getCell (applyOr g ws) r c ≠ 0 ↔
      getCell g r c ≠ 0 ∨ ∃ w ∈ ws, w.r = r ∧ w.c = c ∧ w.v ≠ 0 := by
  induction ws generalizing g with
  | nil => simp [applyOr]
  | cons w ws ih =>
    have hmap2 : (orCell g w.r w.c w.v).map List.length = List.replicate R C := by
      rw [orCell, maplen_setCell]; exact hmap
    have step := ih (orCell g w.r w.c w.v) hmap2
    have hchain : getCell (applyOr g (w :: ws)) r c
        = getCell (applyOr (orCell g w.r w.c w.v) ws) r c := rfl
    by_cases hw : w.r = r ∧ w.c = c
    · have hcur : getCell (orCell g w.r w.c w.v) r c = getCell g r c ||| w.v := by
        rw [orCell, hw.1, hw.2]
        exact getCell_setCell_self g R C r c _ hmap hr hc
      rw [hchain, step, hcur]
      constructor
      · rintro (h | h)
        · rcases (lor_ne_zero_iff _ _).mp h with h2 | h2
          · exact Or.inl h2
          · exact Or.inr ⟨w, by simp, hw.1, hw.2, h2⟩
        · rcases h with ⟨w2, h2, h3⟩
          exact Or.inr ⟨w2, by simp [h2], h3⟩
      · rintro (h | h)
        · exact Or.inl ((lor_ne_zero_iff _ _).mpr (Or.inl h))
        · rcases h with ⟨w2, h2, hh1, hh2, hh3⟩
          rcases List.mem_cons.mp h2 with h4 | h4
          · subst h4; exact Or.inl ((lor_ne_zero_iff _ _).mpr (Or.inr hh3))
          · exact Or.inr ⟨w2, h4, hh1, hh2, hh3⟩
    · have hcur : getCell (orCell g w.r w.c w.v) r c = getCell g r c := by
        apply getCell_setCell_ne
        by_contra hcon
        push_neg at hcon
        exact hw ⟨hcon.1.symm, hcon.2.symm⟩
      rw [hchain, step, hcur]
      constructor
      · rintro (h | h)
        · exact Or.inl h
        · rcases h with ⟨w2, h2, h3⟩
          exact Or.inr ⟨w2, by simp [h2], h3⟩
      · rintro (h | h)
        · exact Or.inl h
        · rcases h with ⟨w2, h2, hh1, hh2, hh3⟩
          rcases List.mem_cons.mp h2 with h4 | h4
          · subst h4; exact absurd ⟨hh1, hh2⟩ hw
          · exact Or.inr ⟨w2, h4, hh1, hh2, hh3⟩

/-! ### Shape helpers -/

/-- True when the call returned normally rather than raising. -/
def isOk {α : Type} (e : Except String α) : Bool :=
  match e with
  | Except.ok _ => true
  | Except.error _ => false

theorem nrows_of_hasShape {g : Grid} {R C : Nat} (h : HasShape g R C) :
    g.length = R := by
  have := congrArg List.length h.2
  simpa using this

theorem rowlen_of_hasShape {g : Grid} {R C : Nat} (h : HasShape g R C) :
    ∀ row ∈ g, row.length = C := by
  intro row hrow
  have : row.length ∈ g.map List.length := List.mem_map_of_mem _ hrow
  rw [h.2] at this
  exact List.eq_of_mem_replicate this

theorem ncols_of_maplen {g : Grid} {R C : Nat}
    (hmap : g.map List.length = List.replicate R C) (hR : 0 < R) :
    ncols g = C := by
  cases g with
  | nil => simp at hmap; omega
  | cons row rs =>
    cases R with
    | zero => omega
    | succ R =>
      simp [List.replicate_succ] at hmap
      simp [ncols, hmap.1]

theorem ncols_of_hasShape {g : Grid} {R C : Nat} (h : HasShape g R C) :
    ncols g = C :=
  ncols_of_maplen h.2 h.1

theorem shape2?_of_hasShape {g : Grid} {R C : Nat} (h : HasShape g R C) :
    shape2? g = some (R, C) := by
  cases g with
  | nil =>
    have h1 := nrows_of_hasShape h
    have h2 := h.1
    simp at h1
    omega
  | cons row rs =>
    simp only [shape2?]
    have h1 := nrows_of_hasShape h
    have h2 := rowlen_of_hasShape h row (by simp)
    rw [h1, h2]

theorem maplen_of_rect {g : Grid} (h : Rect g) :
    g.map List.length = List.replicate g.length (ncols g) := by
  rw [List.eq_replicate_iff]
  constructor
  · simp
  · intro b hb
    rcases List.mem_map.mp hb with ⟨row, hrow, rfl⟩
    exact h row hrow

theorem rect_of_maplen {g : Grid} {R C : Nat}
    (hmap : g.map List.length = List.replicate R C) : Rect g := by
  intro row hrow
  have hmem : row.length ∈ g.map List.length := List.mem_map_of_mem _ hrow
  rw [hmap] at hmem
  have hC := List.eq_of_mem_replicate hmem
  have hR : 0 < R := by
    cases g with
    | nil => simp at hrow
    | cons r rs =>
      have := congrArg List.length hmap
      simp at this
      omega
  rw [hC, ncols_of_maplen hmap hR]

theorem maplen_transpose (g : Grid) :
    (transpose g).map List.length = List.replicate (ncols g) (nrows g) := by
  rw [List.eq_replicate_iff]
  constructor
  · simp [transpose]
  · intro b hb
    simp only [transpose, List.map_map, List.mem_map] at hb
    rcases hb with ⟨c, _, rfl⟩
    simp [nrows]

theorem maplen_map_reverse (g : Grid) :
    (g.map List.reverse).map List.length = g.map List.length := by
  simp

theorem rect_transpose (g : Grid) : Rect (transpose g) :=
  rect_of_maplen (maplen_transpose g)

theorem rect_hflip {u : Bug} (hp : Rect u.patch) (hm : Rect u.mask) :
    Rect (hflip u).patch ∧ Rect (hflip u).mask := by
  constructor
  · exact rect_of_maplen (g := u.patch.map List.reverse)
      (by rw [maplen_map_reverse, maplen_of_rect hp])
  · exact rect_of_maplen (g := u.mask.map List.reverse)
      (by rw [maplen_map_reverse, maplen_of_rect hm])

theorem rect_vflip {u : Bug} (hp : Rect u.patch) (hm : Rect u.mask) :
    Rect (vflip u).patch ∧ Rect (vflip u).mask := by
  constructor
  · exact rect_of_maplen (g := u.patch.reverse)
      (by rw [List.map_reverse, maplen_of_rect hp, List.reverse_replicate])
  · exact rect_of_maplen (g := u.mask.reverse)
      (by rw [List.map_reverse, maplen_of_rect hm, List.reverse_replicate])

/-! ### Membership in the write sequences -/

theorem mem_scaleWrites {src : Grid} {R C ys xs : Nat} {w : Write} :
    w ∈ scaleWrites src R C ys xs ↔
      ∃ i, i < ys ∧ ∃ j, j < xs ∧ ∃ a, a < R ∧ ∃ b, b < C ∧
        w = ⟨i + a * ys, j + b * xs, getCell src a b⟩ := by
  simp only [scaleWrites, List.mem_flatMap, List.mem_map, List.mem_range]
  constructor
  · rintro ⟨i, hi, j, hj, a, ha, b, hb, rfl⟩
    exact ⟨i, hi, j, hj, a, ha, b, hb, rfl⟩
  · rintro ⟨i, hi, j, hj, a, ha, b, hb, rfl⟩
    exact ⟨i, hi, j, hj, a, ha, b, hb, rfl⟩

theorem mem_marginWrites {src : Grid} {R C m : Nat} {w : Write} :
    w ∈ marginWrites src R C m ↔
      ∃ i, i < m ∧ ∃ j, j < m ∧ ∃ a, a < R ∧ ∃ b, b < C ∧
        w = ⟨i + a, j + b, getCell src a b⟩ := by
  simp only [marginWrites, List.mem_flatMap, List.mem_map, List.mem_range]
  constructor
  · rintro ⟨i, hi, j, hj, a, ha, b, hb, rfl⟩
    exact ⟨i, hi, j, hj, a, ha, b, hb, rfl⟩
  · rintro ⟨i, hi, j, hj, a, ha, b, hb, rfl⟩
    exact ⟨i, hi, j, hj, a, ha, b, hb, rfl⟩

theorem strided_div (i a ys : Nat) (hi : i < ys) : (i + a * ys) / ys = a := by
  rw [Nat.add_mul_div_right _ _ (by omega : 0 < ys), Nat.div_eq_of_lt hi]
  exact Nat.zero_add a

/-! ### The net effect of the scale and margin write sequences -/

theorem scaled_array_getCell (src : Grid) (R C ys xs : Nat)
    (hys : 0 < ys) (hxs : 0 < xs) (r c : Nat) (hr : r < R * ys) (hc : c < C * xs) :
    getCell (applySet (zeros (R * ys) (C * xs)) (scaleWrites src R C ys xs)) r c
      = getCell src (r / ys) (c / xs) := by
  apply getCell_applySet_hit _ _ (R * ys) (C * xs) r c _ (maplen_zeros _ _) hr hc
  · refine ⟨⟨r % ys + r / ys * ys, c % xs + c / xs * xs,
      getCell src (r / ys) (c / xs)⟩, ?_, ?_, ?_⟩
    · exact mem_scaleWrites.mpr ⟨r % ys, Nat.mod_lt _ hys, c % xs, Nat.mod_lt _ hxs,
        r / ys, (Nat.div_lt_iff_lt_mul hys).mpr hr,
        c / xs, (Nat.div_lt_iff_lt_mul hxs).mpr hc, rfl⟩
    · exact Nat.mod_add_div' r ys
    · exact Nat.mod_add_div' c xs
  · intro w hw hwr hwc
    rcases mem_scaleWrites.mp hw with ⟨i, hi, j, hj, a, ha, b, hb, rfl⟩
    simp only at hwr hwc ⊢
    have ha2 : a = r / ys := by rw [← hwr, strided_div i a ys hi]
    have hb2 : b = c / xs := by rw [← hwc, strided_div j b xs hj]
    rw [ha2, hb2]

theorem margin_array_getCell_iff (src : Grid) (R C m r c : Nat) :
    getCell (applyOr (zeros (R + 2 * m) (C + 2 * m))
        (marginWrites src R C (2 * m + 1))) r c ≠ 0 ↔
      ∃ a, a < R ∧ ∃ b, b < C ∧ getCell src a b ≠ 0 ∧
        chebDist ((r : Int), (c : Int)) ((a : Int) + (m : Int), (b : Int) + (m : Int))
          ≤ m := by
  by_cases hin : r < R + 2 * m ∧ c < C + 2 * m
  · rw [getCell_applyOr_ne_zero _ _ (R + 2 * m) (C + 2 * m) r c
      (maplen_zeros _ _) hin.1 hin.2]
    rw [getCell_zeros]
    simp only [ne_eq, not_true_eq_false, false_or]
    constructor
    · rintro ⟨w, hw, hwr, hwc, hwv⟩
      rcases mem_marginWrites.mp hw with ⟨i, hi, j, hj, a, ha, b, hb, rfl⟩
      simp only at hwr hwc hwv
      refine ⟨a, ha, b, hb, hwv, ?_⟩
      simp only [chebDist, max_le_iff]
      constructor <;> simp only [Nat.le_iff_lt_or_eq] <;> omega
    · rintro ⟨a, ha, b, hb, hv, hcheb⟩
      simp only [chebDist, max_le_iff] at hcheb
      refine ⟨⟨(r - a) + a, (c - b) + b, getCell src a b⟩, ?_, ?_, ?_, hv⟩
      · refine mem_marginWrites.mpr ⟨r - a, ?_, c - b, ?_, a, ha, b, hb, rfl⟩
        · omega
        · omega
      · simp only; omega
      · simp only; omega
  · have hmap : (applyOr (zeros (R + 2 * m) (C + 2 * m))
        (marginWrites src R C (2 * m + 1))).map List.length
        = List.replicate (R + 2 * m) (C + 2 * m) := by
      rw [maplen_applyOr, maplen_zeros]
    constructor
    · intro h
      exfalso
      rcases Nat.lt_or_ge r (R + 2 * m) with hr | hr
      · rcases Nat.lt_or_ge c (C + 2 * m) with hc | hc
        · exact hin ⟨hr, hc⟩
        · exact h (getCell_eq_zero_of_col_le _ _ _ _ _ hmap hc)
      · exact h (getCell_eq_zero_of_row_le _ _ _ _ _ hmap hr)
    · rintro ⟨a, ha, b, hb, hv, hcheb⟩
      exfalso
      simp only [chebDist, max_le_iff] at hcheb
      omega

/-! ### Rectangularity preservation for the rotation dispatch -/

theorem rotateValid_rect (a : Nat) :
    ∀ u : Bug, Rect u.patch → Rect u.mask →
      Rect (rotateValid u a).patch ∧ Rect (rotateValid u a).mask := by
  induction a using Nat.strong_induction_on with
  | _ a ih =>
    intro u hp hm
    by_cases h0 : a = 0
    · subst h0
      rw [rotateValid]
      simp only [dif_pos rfl]
      exact ⟨hp, hm⟩
    · by_cases h90 : a = 90
      · subst h90
        rw [rotateValid]
        simp only [dif_neg, dif_pos, reduceCtorEq]
        exact rect_hflip (u := ⟨u.name, transpose u.patch, transpose u.mask⟩)
          (rect_transpose u.patch) (rect_transpose u.mask)
      · rw [rotateValid]
        simp only [dif_neg h0, dif_neg h90]
        have hf := rect_hflip (u := u) hp hm
        have hv := rect_vflip (u := hflip u) hf.1 hf.2
        exact ih (a - 180) (by omega) (vflip (hflip u)) hv.1 hv.2

/-! ### Concrete bugs used to instantiate the theorems -/

/-- A concrete 1 by 1 Bug. -/
def bugW1 : Bug := ⟨"w", [[1]], [[1]]⟩

/-- A concrete 2 by 2 Bug. -/
def bugW2 : Bug := ⟨"m", [[1, 1], [1, 1]], [[1, 1], [1, 1]]⟩

/-- A concrete Bug whose patch and mask have different shapes. -/
def bugW12 : Bug := ⟨"r", [[1, 2]], [[3], [4]]⟩

/-! ### The success case of margin -/

/-- On a patch of 2D shape (R, C) and a non-negative margin m, margin returns
the Bug with the same patch and the or-accumulated mask. -/
theorem margin_eq_ok (u : Bug) (R C m : Nat) (hp : HasShape u.patch R C) :
    margin u (m : Int) = Except.ok ⟨u.name, u.patch,
      applyOr (zeros (R + 2 * m) (C + 2 * m))
        (marginWrites u.patch R C (2 * m + 1))⟩ := by
  have hsp := shape2?_of_hasShape hp
  have e1 : ((R : Int) + (m : Int) * 2).toNat = R + 2 * m := by omega
  have e2 : ((C : Int) + (m : Int) * 2).toNat = C + 2 * m := by omega
  have e3 : ((m : Int) * 2 + 1).toNat = 2 * m + 1 := by omega
  simp only [margin, hsp]
  rw [if_neg (by push_neg; omega)]
  rw [e1, e2, e3]

/-! ### Claims -/

/-- C8: rotate(0) returns the receiver itself (the very same entity, no
copy), and rotate(360) reduces to 0 modulo 360, so it too returns the
receiver — in particular its pattern and mask are identical to the
original. -/
theorem C8_rotate_zero_and_360 (u : Bug) :
    rotate u 0 = Except.ok u ∧ rotate u 360 = Except.ok u := by
  have h0 : rotateValid u 0 = u := by rw [rotateValid]; simp
  constructor <;> simp [rotate, h0]

/-- C3: rotate(90) transposes patch and mask and applies hflip to the
result; the resulting patch has the original patch width as height and
height as width, and likewise for the mask. -/
theorem C3_rotate90_transpose_hflip (u : Bug) (R C MR MC : Nat)
    (hp : HasShape u.patch R C) (hm : HasShape u.mask MR MC)
    (hC : 0 < C) (hMC : 0 < MC) :
    rotate u 90 =
      Except.ok (hflip ⟨u.name, transpose u.patch, transpose u.mask⟩) ∧
    HasShape (hflip ⟨u.name, transpose u.patch, transpose u.mask⟩).patch C R ∧
    HasShape (hflip ⟨u.name, transpose u.patch, transpose u.mask⟩).mask MC MR := by
  refine ⟨?_, ⟨hC, ?_⟩, ⟨hMC, ?_⟩⟩
  · have h90 : rotateValid u 90 =
        hflip ⟨u.name, transpose u.patch, transpose u.mask⟩ := by
      rw [rotateValid]; simp
    have hmod : (90 : Int) % 360 = 90 := by decide
    simp [rotate, hmod, h90]
  · show ((transpose u.patch).map List.reverse).map List.length = _
    rw [maplen_map_reverse, maplen_transpose, ncols_of_hasShape hp,
      show nrows u.patch = u.patch.length from rfl, nrows_of_hasShape hp]
  · show ((transpose u.mask).map List.reverse).map List.length = _
    rw [maplen_map_reverse, maplen_transpose, ncols_of_hasShape hm,
      show nrows u.mask = u.mask.length from rfl, nrows_of_hasShape hm]

/-- C3 witness: the theorem applied to a concrete Bug with a 1 by 2 patch
and a 2 by 1 mask. -/
theorem C3_rotate90_transpose_hflip_witness :
    (HasShape bugW12.patch 1 2 ∧ HasShape bugW12.mask 2 1 ∧
      (0 : Nat) < 2 ∧ (0 : Nat) < 1) ∧
    (rotate bugW12 90 =
      Except.ok (hflip ⟨bugW12.name, transpose bugW12.patch,
        transpose bugW12.mask⟩) ∧
    HasShape (hflip ⟨bugW12.name, transpose bugW12.patch,
      transpose bugW12.mask⟩).patch 2 1 ∧
    HasShape (hflip ⟨bugW12.name, transpose bugW12.patch,
      transpose bugW12.mask⟩).mask 1 2) :=
  ⟨⟨by decide, by decide, by decide, by decide⟩,
    C3_rotate90_transpose_hflip bugW12 1 2 2 1
      (by decide) (by decide) (by decide) (by decide)⟩

/-- C10: hflip and vflip commute: flipping horizontally then vertically is
the same Bug (name, pattern and mask) as flipping vertically then
horizontally. -/
theorem C10_flips_commute (u : Bug) : vflip (hflip u) = hflip (vflip u) := by
  simp [hflip, vflip]

/-- C7 (code bug): the constructor performs no shape validation at all —
under the Python 2 era numpy this source runs on, numpy.array turns rows of
inconsistent lengths into a 1-D object array without raising — so
constructing a Bug whose pattern rows have differing lengths succeeds,
shown here at the ragged pattern with rows of lengths 2 and 1; construction
never raises on any input, contradicting the claimed InvalidShapeError. -/
theorem C7_construction_never_raises :
    mkBug "x" [[1, 2], [3]] none =
      Except.ok ⟨"x", [[1, 2], [3]], [[1, 2], [3]]⟩ ∧
    ∀ (n : String) (p : Grid) (mo : Option Grid), isOk (mkBug n p mo) = true := by
  refine ⟨rfl, ?_⟩
  intro n p mo
  cases mo <;> rfl

/-- C1: on a patch of 2D shape (R, C) and non-negative margin m, margin
returns a Bug with the same patch and a mask of shape (R + 2m, C + 2m)
whose cell (r, c) is non-zero exactly when some non-zero patch cell (a, b),
placed at its centered position (a + m, b + m), is within Chebyshev
distance m of (r, c) — the binary dilation of the patch by a square of side
2m + 1. -/
theorem C1_margin_dilation (u : Bug) (R C m : Nat) (hp : HasShape u.patch R C) :
    ∃ u2, margin u (m : Int) = Except.ok u2 ∧
      u2.patch = u.patch ∧
      HasShape u2.mask (R + 2 * m) (C + 2 * m) ∧
      ∀ r c : Nat, getCell u2.mask r c ≠ 0 ↔
        ∃ a, a < R ∧ ∃ b, b < C ∧ getCell u.patch a b ≠ 0 ∧
          chebDist ((r : Int), (c : Int))
            ((a : Int) + (m : Int), (b : Int) + (m : Int)) ≤ m := by
  refine ⟨_, margin_eq_ok u R C m hp, rfl, ⟨by have := hp.1; omega, ?_⟩, ?_⟩
  · rw [maplen_applyOr, maplen_zeros]
  · intro r c
    exact margin_array_getCell_iff u.patch R C m r c

/-- C1 witness: the theorem applied to the 1 by 1 Bug with margin 1. -/
theorem C1_margin_dilation_witness :
    HasShape bugW1.patch 1 1 ∧
    (∃ u2, margin bugW1 ((1 : Nat) : Int) = Except.ok u2 ∧
      u2.patch = bugW1.patch ∧
      HasShape u2.mask (1 + 2 * 1) (1 + 2 * 1) ∧
      ∀ r c : Nat, getCell u2.mask r c ≠ 0 ↔
        ∃ a, a < 1 ∧ ∃ b, b < 1 ∧ getCell bugW1.patch a b ≠ 0 ∧
          chebDist ((r : Int), (c : Int))
            ((a : Int) + ((1 : Nat) : Int), (b : Int) + ((1 : Nat) : Int))
            ≤ (1 : Nat)) :=
  ⟨by decide, C1_margin_dilation bugW1 1 1 1 (by decide)⟩

/-- C9: the Bug returned by margin(m) has derived margin accessors marginh
and marginw both equal to m, whatever the mask of the receiver was. -/
theorem C9_margin_accessors (u : Bug) (R C m : Nat) (hp : HasShape u.patch R C) :
    ∃ u2, margin u (m : Int) = Except.ok u2 ∧
      u2.marginh = (m : Int) ∧ u2.marginw = (m : Int) := by
  refine ⟨_, margin_eq_ok u R C m hp, ?_, ?_⟩
  · have hlen : (applyOr (zeros (R + 2 * m) (C + 2 * m))
        (marginWrites u.patch R C (2 * m + 1))).length = R + 2 * m := by
      have h2 := congrArg List.length
        (maplen_applyOr (zeros (R + 2 * m) (C + 2 * m))
          (marginWrites u.patch R C (2 * m + 1)))
      rw [maplen_zeros] at h2
      simpa using h2
    show Int.fdiv _ 2 = _
    rw [show Bug.mh ⟨u.name, u.patch, applyOr (zeros (R + 2 * m) (C + 2 * m))
        (marginWrites u.patch R C (2 * m + 1))⟩
      = R + 2 * m from hlen]
    rw [show Bug.h ⟨u.name, u.patch, applyOr (zeros (R + 2 * m) (C + 2 * m))
        (marginWrites u.patch R C (2 * m + 1))⟩
      = R from nrows_of_hasShape hp]
    rw [Int.fdiv_eq_ediv _ (by norm_num)]
    omega
  · have hcols : ncols (applyOr (zeros (R + 2 * m) (C + 2 * m))
        (marginWrites u.patch R C (2 * m + 1))) = C + 2 * m := by
      apply ncols_of_maplen (R := R + 2 * m)
      · rw [maplen_applyOr, maplen_zeros]
      · have := hp.1; omega
    show Int.fdiv _ 2 = _
    rw [show Bug.mw ⟨u.name, u.patch, applyOr (zeros (R + 2 * m) (C + 2 * m))
        (marginWrites u.patch R C (2 * m + 1))⟩
      = C + 2 * m from hcols]
    rw [show Bug.w ⟨u.name, u.patch, applyOr (zeros (R + 2 * m) (C + 2 * m))
        (marginWrites u.patch R C (2 * m + 1))⟩
      = C from ncols_of_hasShape hp]
    rw [Int.fdiv_eq_ediv _ (by norm_num)]
    omega

/-- C9 witness: the theorem applied to the 1 by 1 Bug with margin 1. -/
theorem C9_margin_accessors_witness :
    HasShape bugW1.patch 1 1 ∧
    (∃ u2, margin bugW1 ((1 : Nat) : Int) = Except.ok u2 ∧
      u2.marginh = ((1 : Nat) : Int) ∧ u2.marginw = ((1 : Nat) : Int)) :=
  ⟨by decide, C9_margin_accessors bugW1 1 1 1 (by decide)⟩

/-! ### The success case of scale -/

/-- On integer scales x, y at least 0 and 2D patch and mask shapes, scale
returns the Bug whose arrays are the zero targets overwritten by the
strided writes. -/
theorem scale_eq_ok (u : Bug) (R C MR MC x y : Nat)
    (hp : HasShape u.patch R C) (hm : HasShape u.mask MR MC) :
    scale u (PyScalar.int (x : Int)) (some (PyScalar.int (y : Int))) =
      Except.ok ⟨u.name,
        applySet (zeros (R * y) (C * x)) (scaleWrites u.patch R C y x),
        applySet (zeros (MR * y) (MC * x)) (scaleWrites u.mask MR MC y x)⟩ := by
  have hsp := shape2?_of_hasShape hp
  have hsm := shape2?_of_hasShape hm
  simp only [scale, Option.getD_some, hsp, hsm]
  rw [if_neg (by
    push_neg
    exact ⟨mul_nonneg (Int.natCast_nonneg R) (Int.natCast_nonneg y),
      mul_nonneg (Int.natCast_nonneg C) (Int.natCast_nonneg x)⟩)]
  rw [if_neg (by
    push_neg
    exact ⟨mul_nonneg (Int.natCast_nonneg MR) (Int.natCast_nonneg y),
      mul_nonneg (Int.natCast_nonneg MC) (Int.natCast_nonneg x)⟩)]
  simp only [Int.toNat_ofNat]

/-- C2: scale(x, y) with positive integer scales is nearest-neighbor block
upsampling: the patch becomes (R*y, C*x) with element (r, c) the source
patch element at (r / y, c / x), and the mask likewise from its own shape
(MR, MC). -/
theorem C2_scale_block_upsampling (u : Bug) (R C MR MC x y : Nat)
    (hx : 0 < x) (hy : 0 < y)
    (hp : HasShape u.patch R C) (hm : HasShape u.mask MR MC) :
    ∃ u2, scale u (PyScalar.int (x : Int)) (some (PyScalar.int (y : Int))) =
        Except.ok u2 ∧
      u2.name = u.name ∧
      HasShape u2.patch (R * y) (C * x) ∧
      (∀ r c, r < R * y → c < C * x →
        getCell u2.patch r c = getCell u.patch (r / y) (c / x)) ∧
      HasShape u2.mask (MR * y) (MC * x) ∧
      (∀ r c, r < MR * y → c < MC * x →
        getCell u2.mask r c = getCell u.mask (r / y) (c / x)) := by
  refine ⟨_, scale_eq_ok u R C MR MC x y hp hm, rfl,
    ⟨Nat.mul_pos hp.1 hy, ?_⟩, ?_, ⟨Nat.mul_pos hm.1 hy, ?_⟩, ?_⟩
  · rw [maplen_applySet, maplen_zeros]
  · intro r c hr hc
    exact scaled_array_getCell u.patch R C y x hy hx r c hr hc
  · rw [maplen_applySet, maplen_zeros]
  · intro r c hr hc
    exact scaled_array_getCell u.mask MR MC y x hy hx r c hr hc

/-- C2 witness: the theorem applied to the 1 by 1 Bug with scales (2, 3). -/
theorem C2_scale_block_upsampling_witness :
    ((0 : Nat) < 2 ∧ (0 : Nat) < 3 ∧
      HasShape bugW1.patch 1 1 ∧ HasShape bugW1.mask 1 1) ∧
    (∃ u2, scale bugW1 (PyScalar.int ((2 : Nat) : Int))
        (some (PyScalar.int ((3 : Nat) : Int))) = Except.ok u2 ∧
      u2.name = bugW1.name ∧
      HasShape u2.patch (1 * 3) (1 * 2) ∧
      (∀ r c, r < 1 * 3 → c < 1 * 2 →
        getCell u2.patch r c = getCell bugW1.patch (r / 3) (c / 2)) ∧
      HasShape u2.mask (1 * 3) (1 * 2) ∧
      (∀ r c, r < 1 * 3 → c < 1 * 2 →
        getCell u2.mask r c = getCell bugW1.mask (r / 3) (c / 2))) :=
  ⟨⟨by decide, by decide, by decide, by decide⟩,
    C2_scale_block_upsampling bugW1 1 1 1 1 2 3
      (by decide) (by decide) (by decide) (by decide)⟩

/-- Helper for C4: any ok result of scale on int scales has rectangular
patch and mask. -/
theorem scale_ok_rect (u : Bug) (xv yv : Int) (u2 : Bug)
    (h : scale u (PyScalar.int xv) (some (PyScalar.int yv)) = Except.ok u2) :
    Rect u2.patch ∧ Rect u2.mask := by
  simp only [scale, Option.getD_some] at h
  split at h
  · split at h
    · simp at h
    · split at h
      · simp at h
      · simp only [Except.ok.injEq] at h
        subst h
        constructor <;>
          exact rect_of_maplen (by rw [maplen_applySet, maplen_zeros])
  · simp at h

/-- C5 corrected: scale raises a TypeError on non-integer scales and a
ValueError (from numpy.zeros) on negative integer scales when the pattern
has a positive column count; but any non-negative integer scales succeed,
including zero, for which the loops simply run zero times. -/
theorem C5_scale_error_conditions (u : Bug) (R C MR MC : Nat)
    (hp : HasShape u.patch R C) (hm : HasShape u.mask MR MC) (hC : 0 < C) :
    (∀ yv, isOk (scale u PyScalar.nonInt yv) = false) ∧
    (∀ xv, isOk (scale u xv (some PyScalar.nonInt)) = false) ∧
    (∀ x y : Int, x < 0 ∨ y < 0 →
      isOk (scale u (PyScalar.int x) (some (PyScalar.int y))) = false) ∧
    (∀ x y : Int, 0 ≤ x → 0 ≤ y →
      isOk (scale u (PyScalar.int x) (some (PyScalar.int y))) = true) := by
  have hsp := shape2?_of_hasShape hp
  have hsm := shape2?_of_hasShape hm
  have hR : 0 < R := hp.1
  refine ⟨?_, ?_, ?_, ?_⟩
  · intro yv
    cases yv with
    | none => rfl
    | some v => cases v <;> rfl
  · intro xv
    cases xv <;> rfl
  · intro x y hneg
    simp only [scale, Option.getD_some, hsp, hsm]
    rw [if_pos ?_]
    · rfl
    · rcases hneg with hx | hy
      · exact Or.inr (mul_neg_of_pos_of_neg (by exact_mod_cast hC) hx)
      · exact Or.inl (mul_neg_of_pos_of_neg (by exact_mod_cast hR) hy)
  · intro x y hx hy
    simp only [scale, Option.getD_some, hsp, hsm]
    rw [if_neg (by
      push_neg
      exact ⟨mul_nonneg (Int.natCast_nonneg R) hy,
        mul_nonneg (Int.natCast_nonneg C) hx⟩)]
    rw [if_neg (by
      push_neg
      exact ⟨mul_nonneg (Int.natCast_nonneg MR) hy,
        mul_nonneg (Int.natCast_nonneg MC) hx⟩)]
    rfl

/-- C5 witness: scales (0, 0) on the 1 by 1 Bug succeed. -/
theorem C5_scale_error_conditions_witness :
    isOk (scale bugW1 (PyScalar.int 0) (some (PyScalar.int 0))) = true :=
  (C5_scale_error_conditions bugW1 1 1 1 1
    (by decide) (by decide) (by decide)).2.2.2 0 0 le_rfl le_rfl

/-- C5 counterexample: contrary to the claim that non-positive integer
scales fail, scale(0) raises no error: the zero-size arrays are allocated
and the replication loops run zero times, so an empty Bug is returned. -/
theorem C5_counterexample_zero_scale_ok :
    scale bugW1 (PyScalar.int 0) none = Except.ok ⟨"w", [], []⟩ := rfl

/-- C6 corrected: margin succeeds on every non-negative integer margin; a
negative margin fails only when it makes a mask dimension negative
(2*|m| exceeding the pattern height or width); a negative margin that
leaves both dimensions non-negative silently returns an all-zero mask. -/
theorem C6_margin_error_conditions (u : Bug) (R C : Nat)
    (hp : HasShape u.patch R C) :
    (∀ m : Nat, isOk (margin u (m : Int)) = true) ∧
    (∀ m : Int, (R : Int) + m * 2 < 0 ∨ (C : Int) + m * 2 < 0 →
      isOk (margin u m) = false) ∧
    (∀ m : Int, m < 0 → 0 ≤ (R : Int) + m * 2 → 0 ≤ (C : Int) + m * 2 →
      ∃ u2, margin u m = Except.ok u2 ∧ ∀ r c, getCell u2.mask r c = 0) := by
  have hsp := shape2?_of_hasShape hp
  refine ⟨?_, ?_, ?_⟩
  · intro m
    rw [margin_eq_ok u R C m hp]
    rfl
  · intro m hneg
    simp only [margin, hsp]
    rw [if_pos hneg]
    rfl
  · intro m hm hR2 hC2
    have e3 : (m * 2 + 1).toNat = 0 := by omega
    simp only [margin, hsp]
    rw [if_neg (by push_neg; omega), e3]
    refine ⟨_, rfl, ?_⟩
    intro r c
    show getCell (applyOr (zeros _ _) (marginWrites u.patch R C 0)) r c = 0
    rw [show marginWrites u.patch R C 0 = [] from rfl]
    exact getCell_zeros _ _ _ _

/-- C6 witness: margin 0 on the 2 by 2 Bug succeeds. -/
theorem C6_margin_error_conditions_witness :
    isOk (margin bugW2 ((0 : Nat) : Int)) = true :=
  (C6_margin_error_conditions bugW2 2 2 (by decide)).1 0

/-- C6 counterexample: contrary to the claim that every negative integer
margin raises, margin(-1) on a 2 by 2 pattern does not raise:
numpy.zeros((0, 0)) succeeds and the loops run zero times, so a Bug with
an empty mask is returned. -/
theorem C6_counterexample_negative_margin_ok :
    margin bugW2 (-1) = Except.ok ⟨"m", [[1, 1], [1, 1]], []⟩ := rfl

/-- C4: each transform — hflip, vflip, rotate, scale, margin, total_mask,
fit_mask — maps a Bug with rectangular patch and mask (of non-negative
integer cells, which the Nat cell type makes intrinsic) to a Bug with
rectangular patch and mask. -/
theorem C4_transforms_preserve_shape (u : Bug)
    (hp : Rect u.patch) (hm : Rect u.mask) :
    (Rect (hflip u).patch ∧ Rect (hflip u).mask) ∧
    (Rect (vflip u).patch ∧ Rect (vflip u).mask) ∧
    (∀ ang : Int, ∀ u2, rotate u ang = Except.ok u2 →
      Rect u2.patch ∧ Rect u2.mask) ∧
    (∀ xv yv u2, scale u xv yv = Except.ok u2 →
      Rect u2.patch ∧ Rect u2.mask) ∧
    (∀ marg : Int, ∀ u2, margin u marg = Except.ok u2 →
      Rect u2.patch ∧ Rect u2.mask) ∧
    (Rect (total_mask u).patch ∧ Rect (total_mask u).mask) ∧
    (Rect (fit_mask u).patch ∧ Rect (fit_mask u).mask) := by
  refine ⟨rect_hflip hp hm, rect_vflip hp hm, ?_, ?_, ?_,
    ⟨hp, rect_of_maplen (maplen_ones _ _)⟩, ⟨hp, hp⟩⟩
  · intro ang u2 h
    by_cases hcond : ang % 360 = 0 ∨ ang % 360 = 90 ∨
        ang % 360 = 180 ∨ ang % 360 = 270
    · simp only [rotate, if_pos hcond, Except.ok.injEq] at h
      subst h
      exact rotateValid_rect _ u hp hm
    · simp only [rotate, if_neg hcond] at h
      simp at h
  · intro xv yv u2 h
    cases xv with
    | nonInt =>
      cases yv with
      | none => simp [scale] at h
      | some v => cases v <;> simp [scale] at h
    | int x =>
      cases yv with
      | none => exact scale_ok_rect u x x u2 h
      | some v =>
        cases v with
        | nonInt => simp [scale] at h
        | int y => exact scale_ok_rect u x y u2 h
  · intro marg u2 h
    simp only [margin] at h
    split at h
    · simp at h
    · split at h
      · simp at h
      · simp only [Except.ok.injEq] at h
        subst h
        exact ⟨hp, rect_of_maplen (by rw [maplen_applyOr, maplen_zeros])⟩

/-- C4 witness: the theorem applied to the 1 by 1 Bug. -/
theorem C4_transforms_preserve_shape_witness :
    (Rect bugW1.patch ∧ Rect bugW1.mask) ∧
    (Rect (hflip bugW1).patch ∧ Rect (hflip bugW1).mask) :=
  ⟨⟨by decide, by decide⟩,
    (C4_transforms_preserve_shape bugW1 (by decide) (by decide)).1⟩

end Bugland
